import Mathlib

/-!
Verification development for the technical-indicator pipeline of the
`trader` repository (`src/indicators.py`).

The pipeline is embedded shallowly:

* a pandas `Series` of floats becomes `List (Option ℚ)`, where `none`
  models `NaN` (the code introduces `NaN` explicitly via `diff()`,
  rolling warm-up windows and `.replace(0, np.nan)`; every arithmetic
  operation propagates it);
* Python float comparisons against `NaN` are `False`, modelled by
  `oLt` / `oGt` returning `false` when an operand is `none`;
* `round(x, d)` is Python's round-half-to-even on the scaled value;
  `int(x)` truncates toward zero and raises on `NaN`;
* a plain Python float division raises `ZeroDivisionError` on a zero
  divisor; the one unguarded such division (the Bollinger
  interpretation branch of `compute_all`) is modelled by an explicit
  error outcome `PipeResult.err`.

Real-number square roots (pandas `rolling().std()`) are modelled by
`sqrtQ`, which is exact on rationals whose square root is rational
(every concrete evaluation in this file has a perfect-square variance);
no theorem below depends on its value elsewhere.
-/

-- Batteries marks the `Rat` field operations `@[irreducible]`; the
-- concrete evaluations below need them to unfold.
attribute [local semireducible] Rat.add Rat.sub Rat.mul Rat.inv

namespace Trader

/-- One OHLCV bar.  `compute_all` reads only the High, Low, Close and
Volume columns; the timestamp and open are never consulted, so they are
omitted from the embedding. -/
structure Bar where
  high : ℚ
  low : ℚ
  close : ℚ
  volume : ℚ
deriving DecidableEq

/-- A pandas float Series: one entry per input index, `none` = NaN. -/
abbrev SeriesQ := List (Option ℚ)

/-! ### NaN-propagating scalar and pointwise operations -/

def oAdd : Option ℚ → Option ℚ → Option ℚ
  | some x, some y => some (x + y)
  | _, _ => none

def oSub : Option ℚ → Option ℚ → Option ℚ
  | some x, some y => some (x - y)
  | _, _ => none

def oMul : Option ℚ → Option ℚ → Option ℚ
  | some x, some y => some (x * y)
  | _, _ => none

/-- Pointwise division.  In the source every series division is guarded
by `.replace(0, np.nan)` (or by `1 + rs ≥ 1`), so a zero divisor never
reaches the division; returning `none` there keeps the model total. -/
def oDiv : Option ℚ → Option ℚ → Option ℚ
  | some x, some y => if y = 0 then none else some (x / y)
  | _, _ => none

def oAbs : Option ℚ → Option ℚ := Option.map (fun x => |x|)

/-- Python float `<` : any comparison with NaN is `False`. -/
def oLt (a b : Option ℚ) : Bool :=
  match a, b with
  | some x, some y => decide (x < y)
  | _, _ => false

/-- Python float `>` : any comparison with NaN is `False`. -/
def oGt (a b : Option ℚ) : Bool :=
  match a, b with
  | some x, some y => decide (x > y)
  | _, _ => false

def map2 (f : Option ℚ → Option ℚ → Option ℚ) (xs ys : SeriesQ) : SeriesQ :=
  List.zipWith f xs ys

def map3 (f : Option ℚ → Option ℚ → Option ℚ → Option ℚ) :
    SeriesQ → SeriesQ → SeriesQ → SeriesQ
  | a :: as, b :: bs, c :: cs => f a b c :: map3 f as bs cs
  | _, _, _ => []

def scalarAdd (c : ℚ) (xs : SeriesQ) : SeriesQ := xs.map (Option.map (fun x => c + x))

def scalarMul (c : ℚ) (xs : SeriesQ) : SeriesQ := xs.map (Option.map (fun x => c * x))

/-- Model of `c - series` (broadcast subtraction with the scalar on the left). -/
def scalarRSub (c : ℚ) (xs : SeriesQ) : SeriesQ := xs.map (Option.map (fun x => c - x))

/-- Model of `c / series` (broadcast division with the scalar on the left); the
zero-divisor guard mirrors `oDiv` and is never reached in the source
(the only use divides by `1 + rs` with `rs ≥ 0`). -/
def scalarDivBy (c : ℚ) (xs : SeriesQ) : SeriesQ :=
  xs.map (fun o => o.bind (fun x => if x = 0 then none else some (c / x)))

/-- Model of `.replace(0, np.nan)`. -/
def replaceZeroNaN (xs : SeriesQ) : SeriesQ :=
  xs.map (fun o => o.bind (fun x => if x = 0 then none else some x))

/-- Model of `.shift()` : every value moves down one index, index 0 becomes NaN. -/
def shift1 (xs : SeriesQ) : SeriesQ := none :: xs.dropLast

/-- Model of `.diff()` : first difference, NaN at index 0. -/
def diffS (xs : SeriesQ) : SeriesQ := map2 oSub xs (shift1 xs)

/-- Model of `.clip(lower=0)` — NaN entries stay NaN. -/
def clipLower0 (xs : SeriesQ) : SeriesQ := xs.map (Option.map (fun x => max x 0))

/-- Model of `.clip(upper=0)` — NaN entries stay NaN. -/
def clipUpper0 (xs : SeriesQ) : SeriesQ := xs.map (Option.map (fun x => min x 0))

def negS (xs : SeriesQ) : SeriesQ := xs.map (Option.map (fun x => -x))

/-- Model of `.abs()` on a series — NaN entries stay NaN. -/
def absS (xs : SeriesQ) : SeriesQ := xs.map oAbs

/-- Model of `np.sign`, with `sign(NaN) = NaN`. -/
def signS (xs : SeriesQ) : SeriesQ :=
  xs.map (Option.map (fun x => if x < 0 then (-1 : ℚ) else if 0 < x then 1 else 0))

/-- Model of `.fillna(0)`. -/
def fillna0 (xs : SeriesQ) : SeriesQ := xs.map (fun o => some (o.getD 0))

/-- Model of `.cumsum()` : pandas keeps NaN at NaN positions and carries the
running total past them. -/
def cumsumGo (acc : ℚ) : SeriesQ → SeriesQ
  | [] => []
  | none :: rest => none :: cumsumGo acc rest
  | some x :: rest => some (acc + x) :: cumsumGo (acc + x) rest

def cumsum (xs : SeriesQ) : SeriesQ := cumsumGo 0 xs

/-! ### Exponential smoothing (`ewm(..., adjust=False).mean()`)

The only NaN entries ever fed to `ewm` in this pipeline are *leading*
ones (index 0 of a `diff()`), for which pandas emits NaN and then seeds
the mean at the first valid value; afterwards
`y_i = (1-α)·y_{i-1} + α·x_i`.  Interior NaNs (which do not occur in
this pipeline) would leave the running mean unchanged. -/

def ewmGo (α : ℚ) : Option ℚ → SeriesQ → SeriesQ
  | _, [] => []
  | none, none :: rest => none :: ewmGo α none rest
  | none, some x :: rest => some x :: ewmGo α (some x) rest
  | some m, none :: rest => some m :: ewmGo α (some m) rest
  | some m, some x :: rest =>
      let y := (1 - α) * m + α * x
      some y :: ewmGo α (some y) rest

/-- Model of `series.ewm(span=p, adjust=False).mean()` : α = 2/(p+1). -/
def ewmSpan (p : ℕ) (xs : SeriesQ) : SeriesQ := ewmGo (2 / ((p : ℚ) + 1)) none xs

/-- Model of `series.ewm(com=c, adjust=False).mean()` : α = 1/(c+1). -/
def ewmCom (c : ℚ) (xs : SeriesQ) : SeriesQ := ewmGo (1 / (c + 1)) none xs

/-! ### Rolling-window operations (`rolling(p)`, NaN before `p` values
and whenever the window contains a NaN — pandas default
`min_periods = window`) -/

/-- Collect a list of defined values; `none` as soon as a NaN occurs. -/
def seqOption : SeriesQ → Option (List ℚ)
  | [] => some []
  | none :: _ => none
  | some x :: rest => (seqOption rest).map (fun w => x :: w)

def windowOpt (xs : SeriesQ) (i p : ℕ) : Option (List ℚ) :=
  if i + 1 < p then none else seqOption ((xs.drop (i + 1 - p)).take p)

def rollApply (f : List ℚ → ℚ) (p : ℕ) (xs : SeriesQ) : SeriesQ :=
  (List.range xs.length).map (fun i => (windowOpt xs i p).map f)

def listMean (w : List ℚ) : ℚ := w.sum / w.length

def listMin : List ℚ → ℚ
  | [] => 0
  | x :: rest => rest.foldl min x

def listMax : List ℚ → ℚ
  | [] => 0
  | x :: rest => rest.foldl max x

/-- Sample variance (ddof = 1), as used by `rolling(period).std()`. -/
def sampleVar (w : List ℚ) : ℚ :=
  ((w.map (fun x => (x - listMean w) ^ 2)).sum) / ((w.length : ℚ) - 1)

/-- Integer square root by binary search over an explicit fuel, so that
it evaluates by structural recursion inside the kernel.  With the
invariant `lo² ≤ n < hi²` it returns `⌊√n⌋` once `hi = lo + 1`. -/
def isqrtGo (n : ℕ) : ℕ → ℕ → ℕ → ℕ
  | 0, lo, _ => lo
  | fuel + 1, lo, hi =>
    if hi ≤ lo + 1 then lo
    else
      let mid := (lo + hi) / 2
      if mid * mid ≤ n then isqrtGo n fuel mid hi else isqrtGo n fuel lo mid

def isqrt (n : ℕ) : ℕ := isqrtGo n (n + 2) 0 (n + 1)

/-- Rational stand-in for the real square root: exact whenever the
argument is the square of a rational (in particular `sqrtQ 0 = 0`).
Every concrete window evaluated in this file has a perfect-square
sample variance, and no theorem depends on `sqrtQ` elsewhere. -/
def sqrtQ (q : ℚ) : ℚ :=
  if q ≤ 0 then 0 else (isqrt (q.num.toNat * q.den) : ℚ) / (q.den : ℚ)

/-- Model of `series.rolling(p).mean()`. -/
def sma (series : SeriesQ) (period : ℕ) : SeriesQ := rollApply listMean period series

/-- Model of `series.rolling(p).min()`. -/
def rollMin (series : SeriesQ) (period : ℕ) : SeriesQ := rollApply listMin period series

/-- Model of `series.rolling(p).max()`. -/
def rollMax (series : SeriesQ) (period : ℕ) : SeriesQ := rollApply listMax period series

/-- Model of `series.rolling(p).std()` (sample standard deviation). -/
def rollingStd (series : SeriesQ) (period : ℕ) : SeriesQ :=
  rollApply (fun w => sqrtQ (sampleVar w)) period series

/-! ### Indicators (`src/indicators.py`) -/

/-- Model of `ema(series, period) = series.ewm(span=period, adjust=False).mean()`. -/
def ema (series : SeriesQ) (period : ℕ) : SeriesQ := ewmSpan period series

/-- Model of `macd(close, fast, slow, signal)` returning
`(macd_line, signal_line, histogram)`; defaults 12, 26, 9. -/
def macd (close : SeriesQ) (fast slow signal : ℕ) : SeriesQ × SeriesQ × SeriesQ :=
  let fast_ema := ema close fast
  let slow_ema := ema close slow
  let macd_line := map2 oSub fast_ema slow_ema
  let signal_line := ema macd_line signal
  let histogram := map2 oSub macd_line signal_line
  (macd_line, signal_line, histogram)

/-- Model of `ema_crossover(close, short, long)` returning `(short_ema, long_ema)`;
defaults 9, 21. -/
def ema_crossover (close : SeriesQ) (short long : ℕ) : SeriesQ × SeriesQ :=
  (ema close short, ema close long)

/-- Model of `gain.ewm(com=period-1, adjust=False).mean()` of the positive part
of `close.diff()`. -/
def rsiAvgGain (close : SeriesQ) (period : ℕ) : SeriesQ :=
  ewmCom ((period : ℚ) - 1) (clipLower0 (diffS close))

/-- Model of `loss.ewm(com=period-1, adjust=False).mean()` of the magnitude of
the negative part of `close.diff()`. -/
def rsiAvgLoss (close : SeriesQ) (period : ℕ) : SeriesQ :=
  ewmCom ((period : ℚ) - 1) (negS (clipUpper0 (diffS close)))

/-- Model of `rsi(close, period)`; default period 14.
`rs = avg_gain / avg_loss.replace(0, nan)`, `RSI = 100 - 100/(1+rs)`. -/
def rsi (close : SeriesQ) (period : ℕ) : SeriesQ :=
  let rs := map2 oDiv (rsiAvgGain close period) (replaceZeroNaN (rsiAvgLoss close period))
  scalarRSub 100 (scalarDivBy 100 (scalarAdd 1 rs))

/-- Model of `stochastic(high, low, close, k_period, d_period)` returning
`(%K, %D)`; defaults 14, 3. -/
def stochastic (high low close : SeriesQ) (k_period d_period : ℕ) : SeriesQ × SeriesQ :=
  let lowest_low := rollMin low k_period
  let highest_high := rollMax high k_period
  let k := scalarMul 100
    (map2 oDiv (map2 oSub close lowest_low)
      (replaceZeroNaN (map2 oSub highest_high lowest_low)))
  (k, sma k d_period)

/-- Model of `bollinger_bands(close, period, std_dev)` returning
`(upper, middle, lower)`; defaults 20, 2.0. -/
def bollinger_bands (close : SeriesQ) (period : ℕ) (std_dev : ℚ) :
    SeriesQ × SeriesQ × SeriesQ :=
  let middle := sma close period
  let std := rollingStd close period
  (map2 oAdd middle (scalarMul std_dev std), middle,
    map2 oSub middle (scalarMul std_dev std))

/-- Row-wise `max` over the three true-range candidates; pandas
`DataFrame.max(axis=1)` ignores NaN entries (only the shifted close is
NaN, and only at index 0). -/
def oMax3 (a b c : Option ℚ) : Option ℚ :=
  match a, b, c with
  | some x, some y, some z => some (max (max x y) z)
  | some x, some y, none => some (max x y)
  | some x, none, some z => some (max x z)
  | none, some y, some z => some (max y z)
  | some x, none, none => some x
  | none, some y, none => some y
  | none, none, some z => some z
  | none, none, none => none

/-- Model of `atr(high, low, close, period)`; default 14. -/
def atr (high low close : SeriesQ) (period : ℕ) : SeriesQ :=
  let pc := shift1 close
  let tr := map3 oMax3 (map2 oSub high low) (absS (map2 oSub high pc))
    (absS (map2 oSub low pc))
  ewmCom ((period : ℚ) - 1) tr

/-- Model of `obv(close, volume)`. -/
def obv (close volume : SeriesQ) : SeriesQ :=
  let direction := fillna0 (signS (diffS close))
  cumsum (map2 oMul direction volume)

/-- Model of `volume_sma(volume, period)`; default 20. -/
def volume_sma (volume : SeriesQ) (period : ℕ) : SeriesQ := sma volume period

/-! ### `compute_all` : latest snapshot, interpretations, score, output -/

/-- Model of `series.iloc[-1]` (last element; `none` when the series is empty or
ends in NaN). -/
def lastD (xs : SeriesQ) : Option ℚ := xs.getLast?.join

/-- Python `round(x, d)` : round half to even on `x·10^d`. -/
def pyRound (d : ℕ) (q : ℚ) : ℚ :=
  let s : ℚ := q * (10 : ℚ) ^ d
  let f : ℤ := ⌊s⌋
  let r : ℚ := s - f
  let n : ℤ := if r < 1 / 2 then f else if 1 / 2 < r then f + 1
    else if f % 2 = 0 then f else f + 1
  (n : ℚ) / (10 : ℚ) ^ d

/-- Model of `round(float(x), d)` — NaN rounds to NaN. -/
def roundO (d : ℕ) : Option ℚ → Option ℚ := Option.map (pyRound d)

/-- Python `int(x)` truncates toward zero; `int(NaN)` raises, hence the
`Option` result. -/
def pyInt (q : ℚ) : ℤ := if 0 ≤ q then ⌊q⌋ else ⌈q⌉

def pyIntO : Option ℚ → Option ℤ := Option.map pyInt

/-- The `latest` dict of `compute_all` (LatestSnapshot): float entries
keep the NaN possibility, the two `int(...)` entries are integers. -/
structure Latest where
  close : Option ℚ
  rsi : Option ℚ
  macd : Option ℚ
  macd_signal : Option ℚ
  macd_hist : Option ℚ
  ema_short : Option ℚ
  ema_long : Option ℚ
  bb_upper : Option ℚ
  bb_mid : Option ℚ
  bb_lower : Option ℚ
  stoch_k : Option ℚ
  stoch_d : Option ℚ
  atr : Option ℚ
  volume : ℤ
  volume_avg : ℤ
deriving DecidableEq

inductive RsiLabel
  | oversold
  | overbought
  | neutral
deriving DecidableEq

inductive MacdLabel
  | bullish
  | bearish
  | crossing
deriving DecidableEq

inductive EmaLabel
  | bullish
  | bearish
deriving DecidableEq

/-- Bollinger classification; `withinBands` records the computed
percentage position (NaN when any operand was NaN). -/
inductive BbLabel
  | aboveUpper
  | belowLower
  | withinBands (pct : Option ℚ)
deriving DecidableEq

inductive StochLabel
  | oversold
  | overbought
  | neutral
deriving DecidableEq

inductive VolLabel
  | high
  | low
  | normal
deriving DecidableEq

/-- RSI interpretation branch: `< 30` oversold, `> 70` overbought, else
neutral (a NaN reading fails both comparisons and lands in `neutral`). -/
def interpRSI (r : Option ℚ) : RsiLabel :=
  if oLt r (some 30) then .oversold
  else if oGt r (some 70) then .overbought
  else .neutral

/-- MACD interpretation branch. -/
def interpMACD (m s h : Option ℚ) : MacdLabel :=
  if oGt m s && oGt h (some 0) then .bullish
  else if oLt m s && oLt h (some 0) then .bearish
  else .crossing

/-- EMA-crossover interpretation branch (binary). -/
def interpEmaCross (short long : Option ℚ) : EmaLabel :=
  if oGt short long then .bullish else .bearish

/-- Bollinger interpretation branch.  The `else` branch divides by
`upper - lower` with plain Python floats: a zero width (both bands
defined and equal) raises `ZeroDivisionError`, modelled as `none`;
a NaN band makes the quotient NaN without raising. -/
def interpBB (c upper lower : Option ℚ) : Option BbLabel :=
  if oGt c upper then some .aboveUpper
  else if oLt c lower then some .belowLower
  else
    match upper, lower with
    | some u, some l =>
        if u = l then none
        else some (.withinBands (c.map (fun cv => (cv - l) / (u - l) * 100)))
    | _, _ => some (.withinBands none)

/-- Stochastic interpretation branch (NaN readings land in `neutral`). -/
def interpStoch (sk sd : Option ℚ) : StochLabel :=
  if oLt sk (some 20) && oLt sd (some 20) then .oversold
  else if oGt sk (some 80) && oGt sd (some 80) then .overbought
  else .neutral

/-- Volume interpretation branch:
`vol_ratio = volume / volume_avg if volume_avg else 1`.  The guard makes
the ratio 1 when the average is 0 (falsy), so the division never sees a
zero denominator.  Returns the label together with the ratio. -/
def interpVolume (volume volume_avg : ℤ) : VolLabel × ℚ :=
  let vol_ratio : ℚ := if volume_avg = 0 then 1 else (volume : ℚ) / (volume_avg : ℚ)
  if vol_ratio > 3 / 2 then (.high, vol_ratio)
  else if vol_ratio < 1 / 2 then (.low, vol_ratio)
  else (.normal, vol_ratio)

/-- The interpretation map (`interp` dict keys of the source). -/
structure Interp where
  rsi : RsiLabel
  macd : MacdLabel
  ema_cross : EmaLabel
  bb : BbLabel
  stoch : StochLabel
  volume : VolLabel × ℚ
deriving DecidableEq

inductive Signal
  | BUY
  | SELL
  | HOLD
deriving DecidableEq

/-- The composite score of `compute_all`: RSI vote (`+1` if `r < 35`,
`-1` if `r > 65`, else nothing), then the binary MACD and EMA votes. -/
def scoreOf (latest : Latest) : ℤ :=
  (if oLt latest.rsi (some 35) then 1 else if oGt latest.rsi (some 65) then -1 else 0)
    + (if oGt latest.macd latest.macd_signal then 1 else -1)
    + (if oGt latest.ema_short latest.ema_long then 1 else -1)

/-- Model of `BUY` when the score is at least 2, `SELL` when at most −2. -/
def signalOf (score : ℤ) : Signal :=
  if 2 ≤ score then .BUY else if score ≤ -2 then .SELL else .HOLD

/-- The populated output record of `compute_all`. -/
structure Output where
  values : Latest
  interp : Interp
  score : ℤ
  signal : Signal
  series : List (String × SeriesQ)
deriving DecidableEq

/-- Outcome of a `compute_all` call: the `{}` insufficient-data return,
an uncaught exception (`ZeroDivisionError` in the Bollinger branch, or
`int(NaN)`), or the populated record. -/
inductive PipeResult
  | insufficient
  | err
  | ok (o : Output)
deriving DecidableEq

/-- Model of `df["Close"]` as an all-defined series. -/
def closeS (bars : List Bar) : SeriesQ := bars.map (fun b => some b.close)

/-- Model of `df["High"]`. -/
def highS (bars : List Bar) : SeriesQ := bars.map (fun b => some b.high)

/-- Model of `df["Low"]`. -/
def lowS (bars : List Bar) : SeriesQ := bars.map (fun b => some b.low)

/-- Model of `df["Volume"]`. -/
def volumeS (bars : List Bar) : SeriesQ := bars.map (fun b => some b.volume)

/-- The `latest` dict of `compute_all`, with the indicator calls of the
source inlined at each key.  `none` when one of the two `int(...)`
conversions sees NaN (a `ValueError` in Python). -/
def latestOf (bars : List Bar) : Option Latest :=
  match pyIntO (lastD (volumeS bars)), pyIntO (lastD (volume_sma (volumeS bars) 20)) with
  | some v, some va =>
    some
      { close := roundO 4 (lastD (closeS bars))
        rsi := roundO 2 (lastD (rsi (closeS bars) 14))
        macd := roundO 4 (lastD (macd (closeS bars) 12 26 9).1)
        macd_signal := roundO 4 (lastD (macd (closeS bars) 12 26 9).2.1)
        macd_hist := roundO 4 (lastD (macd (closeS bars) 12 26 9).2.2)
        ema_short := roundO 4 (lastD (ema_crossover (closeS bars) 9 21).1)
        ema_long := roundO 4 (lastD (ema_crossover (closeS bars) 9 21).2)
        bb_upper := roundO 4 (lastD (bollinger_bands (closeS bars) 20 2).1)
        bb_mid := roundO 4 (lastD (bollinger_bands (closeS bars) 20 2).2.1)
        bb_lower := roundO 4 (lastD (bollinger_bands (closeS bars) 20 2).2.2)
        stoch_k := roundO 2 (lastD (stochastic (highS bars) (lowS bars) (closeS bars) 14 3).1)
        stoch_d := roundO 2 (lastD (stochastic (highS bars) (lowS bars) (closeS bars) 14 3).2)
        atr := roundO 4 (lastD (atr (highS bars) (lowS bars) (closeS bars) 14))
        volume := v
        volume_avg := va }
  | _, _ => none

/-- The `"series"` dict of the output record (raw series for charting),
with exactly the keys the source lists. -/
def seriesOf (bars : List Bar) : List (String × SeriesQ) :=
  [("rsi", rsi (closeS bars) 14),
    ("macd_line", (macd (closeS bars) 12 26 9).1),
    ("sig_line", (macd (closeS bars) 12 26 9).2.1),
    ("hist", (macd (closeS bars) 12 26 9).2.2),
    ("bb_upper", (bollinger_bands (closeS bars) 20 2).1),
    ("bb_mid", (bollinger_bands (closeS bars) 20 2).2.1),
    ("bb_lower", (bollinger_bands (closeS bars) 20 2).2.2),
    ("ema_short", (ema_crossover (closeS bars) 9 21).1),
    ("ema_long", (ema_crossover (closeS bars) 9 21).2),
    ("obv", obv (closeS bars) (volumeS bars))]

/-- Model of `compute_all(df)` from `src/indicators.py`: the insufficient-data
guard, the latest snapshot, the six interpretation branches, the
composite score/signal and the bundled output record. -/
def compute_all (bars : List Bar) : PipeResult :=
  if bars.isEmpty || bars.length < 30 then .insufficient
  else
    match latestOf bars with
    | none => .err
    | some latest =>
      match interpBB latest.close latest.bb_upper latest.bb_lower with
      | none => .err
      | some bbLabel =>
        let score := scoreOf latest
        .ok
          { values := latest
            interp :=
              { rsi := interpRSI latest.rsi
                macd := interpMACD latest.macd latest.macd_signal latest.macd_hist
                ema_cross := interpEmaCross latest.ema_short latest.ema_long
                bb := bbLabel
                stoch := interpStoch latest.stoch_k latest.stoch_d
                volume := interpVolume latest.volume latest.volume_avg }
            score := score
            signal := signalOf score
            series := seriesOf bars }

/-! ### Concrete inputs used by witnesses and counterexamples -/

/-- A bar whose open/high/low/close all equal `c` (spec scenarios use
`high = low = close`). -/
def constBar (c v : ℚ) : Bar := { high := c, low := c, close := c, volume := v }

/-- Scenario C of the spec: 40 bars with one identical close value. -/
def flat40 : List Bar := List.replicate 40 (constBar 100 1000)

/-- A 30-bar nondecreasing close series (no down move, so the Wilder
average loss is 0 everywhere and the latest RSI is NaN).  The final
20-bar window has mean 100 and sample variance exactly 16, so the
Bollinger bands evaluate exactly (σ = 4) and the last close 110 lies
above the upper band 108. -/
def upCloses : List ℚ :=
  List.replicate 10 90 ++ [90, 94, 96] ++ List.replicate 14 100 ++ [104, 106, 110]

def demoUp : List Bar := upCloses.map (fun c => constBar c 1000)

def outputDefault : Output :=
  { values :=
      { close := none, rsi := none, macd := none, macd_signal := none,
        macd_hist := none, ema_short := none, ema_long := none, bb_upper := none,
        bb_mid := none, bb_lower := none, stoch_k := none, stoch_d := none,
        atr := none, volume := 0, volume_avg := 0 },
    interp :=
      { rsi := .neutral, macd := .crossing, ema_cross := .bearish,
        bb := BbLabel.withinBands none, stoch := .neutral, volume := (VolLabel.normal, 1) },
    score := 0, signal := .HOLD, series := [] }

/-- Project the populated record out of a pipeline outcome. -/
def okOut (r : PipeResult) : Output :=
  match r with
  | PipeResult.ok o => o
  | _ => outputDefault

/-- The record `compute_all` produces on `demoUp`. -/
def demoOut : Output := okOut (compute_all demoUp)

/-! ### Specification-side definitions (for refinement claims)

These follow the wording of the specification, to be compared against
the source-derived definitions above. -/

/-- C2's RSI vote as the spec words it: `+1` if latest RSI < 35, `-1`
if latest RSI > 65, `0` otherwise. -/
def rsiVote (r : Option ℚ) : ℤ :=
  if oLt r (some 35) then 1 else if oGt r (some 65) then -1 else 0

/-- C2's MACD vote: `+1` if `macd_line > signal_line` else `-1`. -/
def macdVote (m s : Option ℚ) : ℤ := if oGt m s then 1 else -1

/-- C2's EMA vote: `+1` if short EMA > long EMA else `-1`. -/
def emaVote (short long : Option ℚ) : ℤ := if oGt short long then 1 else -1

/-- C7's recurrence, seeded at the first element:
`y_0 = x_0`, `y_i = α·x_i + (1-α)·y_{i-1}` with `α = 2/(p+1)`. -/
def emaSpecGo (α : ℚ) (y : ℚ) : List ℚ → List ℚ
  | [] => []
  | x :: rest =>
    let y2 := α * x + (1 - α) * y
    y2 :: emaSpecGo α y2 rest

def emaSpec (xs : List ℚ) (p : ℕ) : List ℚ :=
  match xs with
  | [] => []
  | x :: rest => x :: emaSpecGo (2 / ((p : ℚ) + 1)) x rest

/-- Every entry of a series is defined (no NaN anywhere). -/
def AllSome (xs : SeriesQ) : Prop := ∀ o ∈ xs, o.isSome = true

/-- The Stochastic %K series of `demoUp` — computed by the pipeline but
absent from the output's series map. -/
def stochKDemo : SeriesQ := (stochastic (highS demoUp) (lowS demoUp) (closeS demoUp) 14 3).1

/-- The Stochastic %D series of `demoUp`. -/
def stochDDemo : SeriesQ := (stochastic (highS demoUp) (lowS demoUp) (closeS demoUp) 14 3).2

/-- The ATR series of `demoUp`. -/
def atrDemo : SeriesQ := atr (highS demoUp) (lowS demoUp) (closeS demoUp) 14

/-- The 20-period volume average series of `demoUp`. -/
def volAvgDemo : SeriesQ := volume_sma (volumeS demoUp) 20

/-! ## Theorems -/

/-- Everything a populated `compute_all` result determines: the guard
passed, the snapshot is `latestOf`, score/signal/series/interpretations
are the designated functions of it. -/
theorem compute_all_ok_elim {bars : List Bar} {out : Output}
    (h : compute_all bars = PipeResult.ok out) :
    30 ≤ bars.length ∧
    latestOf bars = some out.values ∧
    out.score = scoreOf out.values ∧
    out.signal = signalOf (scoreOf out.values) ∧
    out.series = seriesOf bars ∧
    out.interp.rsi = interpRSI out.values.rsi ∧
    out.interp.stoch = interpStoch out.values.stoch_k out.values.stoch_d ∧
    out.interp.volume = interpVolume out.values.volume out.values.volume_avg := by
  unfold compute_all at h
  split at h
  · exact absurd h (by simp)
  next hc =>
    simp only [Bool.or_eq_true, not_or, List.isEmpty_iff, decide_eq_true_eq, not_lt] at hc
    split at h
    · exact absurd h (by simp)
    next latest hl =>
      split at h
      · exact absurd h (by simp)
      next bbl hb =>
        simp only [PipeResult.ok.injEq] at h
        subst h
        exact ⟨hc.2, hl, rfl, rfl, rfl, rfl, rfl, rfl⟩

/-- C1: an input that is empty or has fewer than 30 bars yields the
designated empty result (`{}`), and no exception escapes the core. -/
theorem claim_C1 (bars : List Bar) (h : bars.length < 30) :
    compute_all bars = PipeResult.insufficient := by
  unfold compute_all
  have : (bars.isEmpty || bars.length < 30) = true := by
    simp [h]
  rw [if_pos this]

theorem claim_C1_witness :
    ([] : List Bar).length < 30 ∧ compute_all [] = PipeResult.insufficient :=
  ⟨by decide, claim_C1 [] (by decide)⟩

/-- Bounds of the composite score: it is a sum of three votes in
`{-1,0,1}`, `{-1,1}`, `{-1,1}`. -/
theorem scoreOf_bounds (l : Latest) : -3 ≤ scoreOf l ∧ scoreOf l ≤ 3 := by
  unfold scoreOf
  split_ifs <;> omega

/-- The tri-state signal thresholds of the source. -/
theorem signalOf_spec (s : ℤ) :
    (signalOf s = Signal.BUY ↔ 2 ≤ s) ∧
    (signalOf s = Signal.SELL ↔ s ≤ -2) ∧
    (signalOf s = Signal.HOLD ↔ -2 < s ∧ s < 2) := by
  unfold signalOf
  split_ifs with h1 h2
  · exact ⟨by simp [h1], by simp; omega, by simp; omega⟩
  · exact ⟨by simp; omega, by simp [h2], by simp; omega⟩
  · exact ⟨by simp; omega, by simp; omega, by simp; omega⟩

/-- C2: for every populated result, the composite score is the sum of
the three votes (RSI `+1` below 35 / `-1` above 65 / else `0`; MACD and
EMA binary), lies in `[-3, 3]`, and the signal is `BUY` iff the score
is at least 2, `SELL` iff at most −2, `HOLD` otherwise. -/
theorem claim_C2 (bars : List Bar) (out : Output)
    (h : compute_all bars = PipeResult.ok out) :
    out.score =
        rsiVote out.values.rsi + macdVote out.values.macd out.values.macd_signal
          + emaVote out.values.ema_short out.values.ema_long ∧
    (-3 ≤ out.score ∧ out.score ≤ 3) ∧
    (out.signal = Signal.BUY ↔ 2 ≤ out.score) ∧
    (out.signal = Signal.SELL ↔ out.score ≤ -2) ∧
    (out.signal = Signal.HOLD ↔ -2 < out.score ∧ out.score < 2) := by
  obtain ⟨-, -, hscore, hsignal, -⟩ := compute_all_ok_elim h
  refine ⟨?_, ?_, ?_, ?_, ?_⟩
  · rw [hscore]; rfl
  · rw [hscore]; exact scoreOf_bounds out.values
  · rw [hsignal, hscore]; exact (signalOf_spec _).1
  · rw [hsignal, hscore]; exact (signalOf_spec _).2.1
  · rw [hsignal, hscore]; exact (signalOf_spec _).2.2

set_option maxRecDepth 400000 in
theorem claim_C2_witness :
    compute_all demoUp = PipeResult.ok demoOut ∧
    (demoOut.score =
        rsiVote demoOut.values.rsi + macdVote demoOut.values.macd demoOut.values.macd_signal
          + emaVote demoOut.values.ema_short demoOut.values.ema_long ∧
      (-3 ≤ demoOut.score ∧ demoOut.score ≤ 3) ∧
      (demoOut.signal = Signal.BUY ↔ 2 ≤ demoOut.score) ∧
      (demoOut.signal = Signal.SELL ↔ demoOut.score ≤ -2) ∧
      (demoOut.signal = Signal.HOLD ↔ -2 < demoOut.score ∧ demoOut.score < 2)) :=
  ⟨by decide, claim_C2 demoUp demoOut (by decide)⟩

set_option maxRecDepth 400000 in
/-- C3 (code bug): on the 40-bar flat series the pipeline *crashes*
(`ZeroDivisionError` in the Bollinger interpretation, whose band width
is 0) instead of completing with sentinel values; the Stochastic %K
does resolve to the NaN sentinel, and the Bollinger bands collapse to
equal values — which is exactly what trips the unguarded division. -/
theorem claim_C3 :
    compute_all flat40 = PipeResult.err ∧
    lastD (stochastic (highS flat40) (lowS flat40) (closeS flat40) 14 3).1 = none ∧
    lastD (bollinger_bands (closeS flat40) 20 2).1 =
      lastD (bollinger_bands (closeS flat40) 20 2).2.2 :=
  ⟨by decide, by decide, by decide⟩

set_option maxRecDepth 400000 in
/-- C4 (counterexample): an undefined (NaN) latest oscillator reading is
*not* reported as indeterminate — it is classified into the neutral
label; on `demoUp` the pipeline emits an undefined latest RSI and its
interpretation entry is the neutral classification. -/
theorem claim_C4_cex :
    interpRSI none = RsiLabel.neutral ∧ interpStoch none none = StochLabel.neutral ∧
    compute_all demoUp = PipeResult.ok demoOut ∧
    demoOut.values.rsi = none ∧ demoOut.interp.rsi = RsiLabel.neutral :=
  ⟨by decide, by decide, by decide, by decide, by decide⟩

/-- C4 (amended): an undefined oscillator reading is never classified
oversold or overbought — both threshold comparisons are false on NaN and
the branch falls through to the neutral label (the code has no separate
indeterminate report). -/
theorem claim_C4 (r sk sd : Option ℚ) (hr : r = none) (hk : sk = none ∨ sd = none) :
    interpRSI r ≠ RsiLabel.oversold ∧ interpRSI r ≠ RsiLabel.overbought ∧
    interpRSI r = RsiLabel.neutral ∧
    interpStoch sk sd ≠ StochLabel.oversold ∧ interpStoch sk sd ≠ StochLabel.overbought ∧
    interpStoch sk sd = StochLabel.neutral := by
  subst hr
  refine ⟨by decide, by decide, by decide, ?_, ?_, ?_⟩ <;>
    rcases hk with hk | hk <;> subst hk <;> simp [interpStoch, oLt, oGt]

theorem claim_C4_witness :
    ((none : Option ℚ) = none ∧ ((none : Option ℚ) = none ∨ (some (50 : ℚ)) = none)) ∧
    (interpRSI none ≠ RsiLabel.oversold ∧ interpRSI none ≠ RsiLabel.overbought ∧
      interpRSI none = RsiLabel.neutral ∧
      interpStoch none (some 50) ≠ StochLabel.oversold ∧
      interpStoch none (some 50) ≠ StochLabel.overbought ∧
      interpStoch none (some 50) = StochLabel.neutral) :=
  ⟨⟨rfl, Or.inl rfl⟩, claim_C4 none none (some 50) rfl (Or.inl rfl)⟩

/-- C10: a zero 20-period volume average makes the guard take ratio 1 —
classified Normal — and the division is evaluated only under a nonzero
denominator (where it is exactly volume / average); the interpretation
the pipeline stores is this very function of the snapshot. -/
theorem claim_C10 (v va : ℤ) :
    (va = 0 → interpVolume v va = (VolLabel.normal, 1)) ∧
    (va ≠ 0 → (interpVolume v va).2 = (v : ℚ) / (va : ℚ)) ∧
    (∀ (bars : List Bar) (out : Output), compute_all bars = PipeResult.ok out →
      out.interp.volume = interpVolume out.values.volume out.values.volume_avg) := by
  refine ⟨?_, ?_, ?_⟩
  · intro h
    subst h
    unfold interpVolume
    norm_num
  · intro h
    unfold interpVolume
    rw [if_neg h]
    simp only []
    split_ifs <;> rfl
  · intro bars out hok
    exact (compute_all_ok_elim hok).2.2.2.2.2.2.2

set_option maxRecDepth 400000 in
theorem claim_C10_witness :
    ((0 : ℤ) = 0 ∧ interpVolume 5 0 = (VolLabel.normal, 1)) ∧
    ((2 : ℤ) ≠ 0 ∧ (interpVolume 7 2).2 = (7 : ℚ) / 2) ∧
    (compute_all demoUp = PipeResult.ok demoOut ∧
      demoOut.interp.volume = interpVolume demoOut.values.volume demoOut.values.volume_avg) :=
  ⟨⟨rfl, (claim_C10 5 0).1 rfl⟩, ⟨by decide, (claim_C10 7 2).2.1 (by decide)⟩,
    ⟨by decide, (claim_C10 0 0).2.2 demoUp demoOut (by decide)⟩⟩

set_option maxRecDepth 400000 in
/-- C5 (counterexample): on `demoUp` the populated output's series map
carries exactly ten entries — RSI, the three MACD series, the three
Bollinger series, the two crossover EMAs and OBV — and no entry holds
the Stochastic %K, %D, ATR or volume-average series: those §4.2
indicators are omitted from the charting map. -/
theorem claim_C5_cex :
    compute_all demoUp = PipeResult.ok demoOut ∧
    demoOut.series.map Prod.fst =
      ["rsi", "macd_line", "sig_line", "hist", "bb_upper", "bb_mid", "bb_lower",
        "ema_short", "ema_long", "obv"] ∧
    (∀ kv ∈ demoOut.series, kv.2 ≠ stochKDemo) ∧
    (∀ kv ∈ demoOut.series, kv.2 ≠ stochDDemo) ∧
    (∀ kv ∈ demoOut.series, kv.2 ≠ atrDemo) ∧
    (∀ kv ∈ demoOut.series, kv.2 ≠ volAvgDemo) :=
  ⟨by decide, by decide, by decide, by decide, by decide, by decide⟩

/-- C5 (amended): every populated record's series map consists of
exactly the ten series the source lists (RSI, MACD line / signal /
histogram, Bollinger upper / mid / lower, short / long EMA, OBV) under
those keys; the Stochastic, ATR and volume-average series are not part
of it and appear only as latest-snapshot scalars. -/
theorem claim_C5 (bars : List Bar) (out : Output)
    (h : compute_all bars = PipeResult.ok out) :
    out.series = seriesOf bars ∧
    out.series.map Prod.fst =
      ["rsi", "macd_line", "sig_line", "hist", "bb_upper", "bb_mid", "bb_lower",
        "ema_short", "ema_long", "obv"] := by
  have hs := (compute_all_ok_elim h).2.2.2.2.1
  exact ⟨hs, by rw [hs]; rfl⟩

set_option maxRecDepth 400000 in
theorem claim_C5_witness :
    compute_all demoUp = PipeResult.ok demoOut ∧
    (demoOut.series = seriesOf demoUp ∧
      demoOut.series.map Prod.fst =
        ["rsi", "macd_line", "sig_line", "hist", "bb_upper", "bb_mid", "bb_lower",
          "ema_short", "ema_long", "obv"]) :=
  ⟨by decide, claim_C5 demoUp demoOut (by decide)⟩

/-- The recurrence behind C7: from a defined seed, the source smoothing
`ewmGo` is exactly the specification recurrence. -/
theorem ewmGo_emaSpecGo (α m : ℚ) (xs : List ℚ) :
    ewmGo α (some m) (xs.map some) = (emaSpecGo α m xs).map some := by
  induction xs generalizing m with
  | nil => rfl
  | cons x rest ih =>
    show some ((1 - α) * m + α * x) :: ewmGo α (some ((1 - α) * m + α * x)) (rest.map some)
      = some (α * x + (1 - α) * m) :: (emaSpecGo α (α * x + (1 - α) * m) rest).map some
    rw [show (1 - α) * m + α * x = α * x + (1 - α) * m from by ring]
    rw [ih]

/-- C7: the source `ema` realises the spec recurrence `y_0 = x_0`,
`y_i = α·x_i + (1-α)·y_{i-1}` with `α = 2/(p+1)` — in particular the
output is defined from index 0, with no warm-up phase. -/
theorem claim_C7 (xs : List ℚ) (p : ℕ) (hp : 1 ≤ p) :
    ema (xs.map some) p = (emaSpec xs p).map some := by
  cases xs with
  | nil => rfl
  | cons x rest =>
    show some x :: ewmGo (2 / ((p : ℚ) + 1)) (some x) (rest.map some)
      = some x :: (emaSpecGo (2 / ((p : ℚ) + 1)) x rest).map some
    rw [ewmGo_emaSpecGo]

theorem claim_C7_witness :
    1 ≤ 9 ∧ ema ([(1 : ℚ), 2, 3].map some) 9 = (emaSpec [(1 : ℚ), 2, 3] 9).map some :=
  ⟨by decide, claim_C7 [1, 2, 3] 9 (by decide)⟩

theorem ewmGo_length (α : ℚ) (s : Option ℚ) (xs : SeriesQ) :
    (ewmGo α s xs).length = xs.length := by
  induction xs generalizing s with
  | nil => cases s <;> rfl
  | cons x rest ih => cases s <;> cases x <;> simp [ewmGo, ih]

theorem rsiAvg_length (close : SeriesQ) (period : ℕ) :
    (rsiAvgGain close period).length = (rsiAvgLoss close period).length := by
  unfold rsiAvgGain rsiAvgLoss ewmCom clipLower0 clipUpper0 negS
  rw [ewmGo_length, ewmGo_length]
  simp

/-- Zero average loss at an index forces the RSI to the undefined
marker at that index: `.replace(0, nan)` turns the denominator into
NaN and the division and the surrounding arithmetic propagate it. -/
theorem rsi_undefined_of_avgLoss_zero (close : SeriesQ) (i : ℕ)
    (h : (rsiAvgLoss close 14)[i]? = some (some 0)) :
    (rsi close 14)[i]? = some none := by
  have hlen : i < (rsiAvgLoss close 14).length := by
    by_contra hc
    rw [List.getElem?_eq_none (Nat.le_of_not_lt hc)] at h
    cases h
  have hlen' : i < (rsiAvgGain close 14).length := by
    rw [rsiAvg_length close 14]
    exact hlen
  obtain ⟨a, ha⟩ : ∃ a, (rsiAvgGain close 14)[i]? = some a :=
    ⟨(rsiAvgGain close 14)[i], List.getElem?_eq_getElem hlen'⟩
  have hrepl : (replaceZeroNaN (rsiAvgLoss close 14))[i]? = some none := by
    unfold replaceZeroNaN
    rw [List.getElem?_map, h]
    rfl
  have hrs :
      (map2 oDiv (rsiAvgGain close 14) (replaceZeroNaN (rsiAvgLoss close 14)))[i]?
        = some none := by
    unfold map2
    rw [List.getElem?_zipWith, ha, hrepl]
    cases a <;> rfl
  unfold rsi scalarRSub scalarDivBy scalarAdd
  simp only [List.getElem?_map, hrs]
  rfl

set_option maxRecDepth 400000 in
/-- C9: a zero Wilder-smoothed average loss at an index makes the RSI
undefined there — the code propagates the undefined marker rather than
saturating to 100 — and on the nondecreasing `demoUp` (a pure uptrend)
this propagates into the latest snapshot (undefined RSI), a zero RSI
vote, and hence a composite score of 2 = 0 + 1 + 1. -/
theorem claim_C9 :
    (∀ (close : SeriesQ) (i : ℕ), (rsiAvgLoss close 14)[i]? = some (some 0) →
      (rsi close 14)[i]? = some none) ∧
    compute_all demoUp = PipeResult.ok demoOut ∧
    demoOut.values.rsi = none ∧ rsiVote demoOut.values.rsi = 0 ∧ demoOut.score = 2 :=
  ⟨rsi_undefined_of_avgLoss_zero, by decide, by decide, by decide, by decide⟩

set_option maxRecDepth 400000 in
theorem claim_C9_witness :
    (rsiAvgLoss (closeS demoUp) 14)[29]? = some (some 0) ∧
    (rsi (closeS demoUp) 14)[29]? = some none :=
  ⟨by decide, claim_C9.1 (closeS demoUp) 29 (by decide)⟩

theorem mem_zipWith {α β γ : Type} {f : α → β → γ} {xs : List α} {ys : List β} {z : γ}
    (hz : z ∈ List.zipWith f xs ys) : ∃ a ∈ xs, ∃ b ∈ ys, z = f a b := by
  induction xs generalizing ys with
  | nil => simp at hz
  | cons x xs ih =>
    cases ys with
    | nil => simp at hz
    | cons y ys =>
      rw [List.zipWith_cons_cons] at hz
      rcases List.mem_cons.mp hz with hz | hz
      · exact ⟨x, List.mem_cons_self x xs, y, List.mem_cons_self y ys, hz⟩
      · obtain ⟨a, ha, b, hb, rfl⟩ := ih hz
        exact ⟨a, List.mem_cons_of_mem x ha, b, List.mem_cons_of_mem y hb, rfl⟩

/-- Values produced by the exponential smoothing stay nonnegative when
the seed and all defined inputs are nonnegative (needs `0 ≤ α ≤ 1`). -/
theorem ewmGo_nonneg {α : ℚ} (h0 : 0 ≤ α) (h1 : α ≤ 1) :
    ∀ (xs : SeriesQ) (s : Option ℚ),
      (∀ y, s = some y → 0 ≤ y) →
      (∀ o ∈ xs, ∀ v, o = some v → 0 ≤ v) →
      ∀ o ∈ ewmGo α s xs, ∀ v, o = some v → 0 ≤ v := by
  intro xs
  induction xs with
  | nil =>
    intro s _ _ o ho
    cases s <;> simp [ewmGo] at ho
  | cons x rest ih =>
    intro s hs hxs o ho
    have hrest : ∀ o ∈ rest, ∀ v, o = some v → 0 ≤ v :=
      fun o ho => hxs o (List.mem_cons_of_mem _ ho)
    cases s with
    | none =>
      cases x with
      | none =>
        rcases List.mem_cons.mp ho with rfl | ho
        · intro v hv; cases hv
        · exact ih none (fun y hy => by cases hy) hrest o ho
      | some xv =>
        have hxv : 0 ≤ xv := hxs (some xv) (List.mem_cons_self _ _) xv rfl
        rcases List.mem_cons.mp ho with rfl | ho
        · intro v hv; cases hv; exact hxv
        · exact ih (some xv) (fun y hy => by cases hy; exact hxv) hrest o ho
    | some m =>
      have hm : 0 ≤ m := hs m rfl
      cases x with
      | none =>
        rcases List.mem_cons.mp ho with rfl | ho
        · intro v hv; cases hv; exact hm
        · exact ih (some m) (fun y hy => by cases hy; exact hm) hrest o ho
      | some xv =>
        have hxv : 0 ≤ xv := hxs (some xv) (List.mem_cons_self _ _) xv rfl
        have hy : 0 ≤ (1 - α) * m + α * xv :=
          add_nonneg (mul_nonneg (by linarith) hm) (mul_nonneg h0 hxv)
        rcases List.mem_cons.mp ho with rfl | ho
        · intro v hv; cases hv; exact hy
        · exact ih (some ((1 - α) * m + α * xv)) (fun y hy2 => by cases hy2; exact hy) hrest o ho

/-- Defined values of the smoothed gain series are nonnegative. -/
theorem rsiAvgGain_nonneg (close : SeriesQ) :
    ∀ o ∈ rsiAvgGain close 14, ∀ v, o = some v → 0 ≤ v := by
  unfold rsiAvgGain ewmCom
  apply ewmGo_nonneg (by norm_num) (by norm_num)
  · intro y hy; cases hy
  · intro o ho v hv
    obtain ⟨w, _, rfl⟩ := List.exists_of_mem_map ho
    cases w with
    | none => cases hv
    | some wv => cases hv; exact le_max_right wv 0

/-- Defined values of the smoothed loss series are nonnegative. -/
theorem rsiAvgLoss_nonneg (close : SeriesQ) :
    ∀ o ∈ rsiAvgLoss close 14, ∀ v, o = some v → 0 ≤ v := by
  unfold rsiAvgLoss ewmCom
  apply ewmGo_nonneg (by norm_num) (by norm_num)
  · intro y hy; cases hy
  · intro o ho v hv
    obtain ⟨w, hw, rfl⟩ := List.exists_of_mem_map ho
    obtain ⟨u, _, rfl⟩ := List.exists_of_mem_map hw
    cases u with
    | none => cases hv
    | some uv => cases hv; exact neg_nonneg.mpr (min_le_right uv 0)

/-- C8: wherever `rsi(close, 14)` is defined, its value lies in the
interval [0, 100] (in fact in [0, 100)): `rs ≥ 0` forces
`0 < 100/(1+rs) ≤ 100`. -/
theorem claim_C8 (close : SeriesQ) (i : ℕ) (x : ℚ)
    (h : (rsi close 14)[i]? = some (some x)) : 0 ≤ x ∧ x ≤ 100 := by
  have hmem : some x ∈ rsi close 14 := List.getElem?_mem h
  unfold rsi scalarRSub at hmem
  obtain ⟨o1, ho1, he1⟩ := List.exists_of_mem_map hmem
  cases o1 with
  | none => cases he1
  | some y =>
    cases he1
    unfold scalarDivBy at ho1
    obtain ⟨o2, ho2, he2⟩ := List.exists_of_mem_map ho1
    cases o2 with
    | none => cases he2
    | some z =>
      by_cases hz0 : z = 0
      · rw [hz0] at he2; cases he2
      · rw [show (some z).bind (fun x => if x = 0 then none else some (100 / x))
            = some (100 / z) from by simp [hz0]] at he2
        cases he2
        unfold scalarAdd at ho2
        obtain ⟨o3, ho3, he3⟩ := List.exists_of_mem_map ho2
        cases o3 with
        | none => cases he3
        | some r =>
          cases he3
          obtain ⟨a, ha, b, hb, hab⟩ := mem_zipWith ho3
          have hr : 0 ≤ r := by
            cases a with
            | none => cases b <;> simp [oDiv] at hab
            | some g =>
              cases b with
              | none => simp [oDiv] at hab
              | some l =>
                have hab' : some r = if l = 0 then none else some (g / l) := hab
                by_cases hl0 : l = 0
                · rw [if_pos hl0] at hab'
                  simp at hab'
                · rw [if_neg hl0] at hab'
                  injection hab' with hr'
                  subst hr'
                  have hg : 0 ≤ g := rsiAvgGain_nonneg close (some g) ha g rfl
                  have hl : 0 ≤ l := by
                    unfold replaceZeroNaN at hb
                    obtain ⟨w, hw, hwe⟩ := List.exists_of_mem_map hb
                    cases w with
                    | none => cases hwe
                    | some l0 =>
                      by_cases h0 : l0 = 0
                      · rw [h0] at hwe; cases hwe
                      · rw [show (some l0).bind (fun x => if x = 0 then none else some x)
                            = some l0 from by simp [h0]] at hwe
                        cases hwe
                        exact rsiAvgLoss_nonneg close (some l) hw l rfl
                  exact div_nonneg hg hl
          have h1r : (0 : ℚ) < 1 + r := by linarith
          have hypos : 0 < 100 / (1 + r) := div_pos (by norm_num) h1r
          have hyle : 100 / (1 + r) ≤ 100 := div_le_self (by norm_num) (by linarith)
          constructor <;> linarith

theorem claim_C8_witness :
    (rsi [some 2, some 1] 14)[1]? = some (some 0) ∧ ((0 : ℚ) ≤ 0 ∧ (0 : ℚ) ≤ 100) :=
  ⟨by decide, claim_C8 [some 2, some 1] 1 0 (by decide)⟩

/-! ### Definedness plumbing for C6 -/

theorem allSome_mapBar (bars : List Bar) (f : Bar → ℚ) :
    AllSome (bars.map (fun b => some (f b))) := by
  intro o ho
  obtain ⟨b, -, rfl⟩ := List.exists_of_mem_map ho
  rfl

theorem allSome_map2 {f : Option ℚ → Option ℚ → Option ℚ}
    (hf : ∀ x y : ℚ, (f (some x) (some y)).isSome = true)
    {xs ys : SeriesQ} (hx : AllSome xs) (hy : AllSome ys) : AllSome (map2 f xs ys) := by
  intro z hz
  obtain ⟨a, ha, b, hb, rfl⟩ := mem_zipWith hz
  obtain ⟨x, rfl⟩ := Option.isSome_iff_exists.mp (hx a ha)
  obtain ⟨y, rfl⟩ := Option.isSome_iff_exists.mp (hy b hb)
  exact hf x y

theorem allSome_ewmGo {α : ℚ} {xs : SeriesQ} (hx : AllSome xs) :
    ∀ s, AllSome (ewmGo α s xs) := by
  induction xs with
  | nil =>
    intro s o ho
    cases s <;> simp [ewmGo] at ho
  | cons x rest ih =>
    have hrest : AllSome rest := fun o ho => hx o (List.mem_cons_of_mem _ ho)
    obtain ⟨xv, rfl⟩ := Option.isSome_iff_exists.mp (hx x (List.mem_cons_self _ _))
    intro s o ho
    cases s with
    | none =>
      rcases List.mem_cons.mp ho with rfl | ho
      · rfl
      · exact ih hrest (some xv) o ho
    | some m =>
      rcases List.mem_cons.mp ho with rfl | ho
      · rfl
      · exact ih hrest (some ((1 - α) * m + α * xv)) o ho

theorem mem_map3 {f : Option ℚ → Option ℚ → Option ℚ → Option ℚ}
    {as bs cs : SeriesQ} {z : Option ℚ} (hz : z ∈ map3 f as bs cs) :
    ∃ a ∈ as, ∃ b ∈ bs, ∃ c ∈ cs, z = f a b c := by
  induction as generalizing bs cs with
  | nil => simp [map3] at hz
  | cons a as ih =>
    cases bs with
    | nil => simp [map3] at hz
    | cons b bs =>
      cases cs with
      | nil => simp [map3] at hz
      | cons c cs =>
        rcases List.mem_cons.mp hz with hz | hz
        · exact ⟨a, List.mem_cons_self _ _, b, List.mem_cons_self _ _,
            c, List.mem_cons_self _ _, hz⟩
        · obtain ⟨a2, ha, b2, hb, c2, hc, rfl⟩ := ih hz
          exact ⟨a2, List.mem_cons_of_mem _ ha, b2, List.mem_cons_of_mem _ hb,
            c2, List.mem_cons_of_mem _ hc, rfl⟩

theorem oMax3_isSome_left (x : ℚ) (b c : Option ℚ) : (oMax3 (some x) b c).isSome = true := by
  cases b <;> cases c <;> rfl

theorem seqOption_isSome {ys : SeriesQ} (h : AllSome ys) : (seqOption ys).isSome = true := by
  induction ys with
  | nil => rfl
  | cons y rest ih =>
    obtain ⟨v, rfl⟩ := Option.isSome_iff_exists.mp (h y (List.mem_cons_self _ _))
    have h2 := ih (fun o ho => h o (List.mem_cons_of_mem _ ho))
    simp only [seqOption, Option.isSome_map']
    exact h2

theorem windowOpt_isSome {xs : SeriesQ} {i p : ℕ} (hp : p ≤ i + 1) (hx : AllSome xs) :
    (windowOpt xs i p).isSome = true := by
  unfold windowOpt
  rw [if_neg (by omega)]
  exact seqOption_isSome
    (fun o ho => hx o (List.drop_subset _ _ (List.take_subset _ _ ho)))

theorem rollApply_getLast? (f : List ℚ → ℚ) (p : ℕ) (xs : SeriesQ) (h : xs ≠ []) :
    (rollApply f p xs).getLast? = some ((windowOpt xs (xs.length - 1) p).map f) := by
  have hn : 0 < xs.length := List.length_pos.mpr h
  unfold rollApply
  rw [List.getLast?_eq_getElem?]
  simp only [List.length_map, List.length_range, List.getElem?_map]
  rw [List.getElem?_range (by omega)]
  rfl

theorem lastD_isSome_of_allSome {xs : SeriesQ} (hx : AllSome xs) (h : xs ≠ []) :
    (lastD xs).isSome = true := by
  unfold lastD
  obtain ⟨o, ho⟩ := Option.isSome_iff_exists.mp (List.getLast?_isSome.mpr h)
  rw [ho]
  obtain ⟨v, rfl⟩ :=
    Option.isSome_iff_exists.mp (hx o (List.mem_of_getLast?_eq_some ho))
  rfl

theorem lastD_rollApply_isSome (f : List ℚ → ℚ) {p : ℕ} {xs : SeriesQ}
    (hx : AllSome xs) (hp : 0 < p) (hlen : p ≤ xs.length) :
    (lastD (rollApply f p xs)).isSome = true := by
  have h : xs ≠ [] := by
    intro e
    subst e
    simp at hlen
    omega
  have hn : 0 < xs.length := List.length_pos.mpr h
  unfold lastD
  rw [rollApply_getLast? f p xs h]
  have hwin : (windowOpt xs (xs.length - 1) p).isSome = true :=
    windowOpt_isSome (by omega) hx
  obtain ⟨w, hw⟩ := Option.isSome_iff_exists.mp hwin
  rw [hw]
  rfl

theorem lastD_map_isSome {g : ℚ → ℚ} {xs : SeriesQ}
    (h : (lastD xs).isSome = true) : (lastD (xs.map (Option.map g))).isSome = true := by
  unfold lastD at *
  rw [List.getLast?_map]
  cases hx : xs.getLast? with
  | none => rw [hx] at h; cases h
  | some o =>
    rw [hx] at h
    cases o with
    | none => cases h
    | some v => rfl

theorem lastD_map2_isSome {f : Option ℚ → Option ℚ → Option ℚ}
    (hf : ∀ x y : ℚ, (f (some x) (some y)).isSome = true)
    {xs ys : SeriesQ} (hx : (lastD xs).isSome = true) (hy : (lastD ys).isSome = true)
    (hlen : xs.length = ys.length) : (lastD (map2 f xs ys)).isSome = true := by
  unfold lastD at hx hy ⊢
  rw [List.getLast?_eq_getElem?] at hx hy ⊢
  have hlen2 : (map2 f xs ys).length = xs.length := by
    simp [map2, List.length_zipWith, hlen]
  rw [hlen2]
  cases hgx : xs[xs.length - 1]? with
  | none => rw [hgx] at hx; cases hx
  | some a =>
    cases hgy : ys[ys.length - 1]? with
    | none => rw [hgy] at hy; cases hy
    | some b =>
      rw [hgx] at hx
      rw [hgy] at hy
      obtain ⟨x, rfl⟩ : ∃ x, a = some x := by
        cases a
        · cases hx
        · exact ⟨_, rfl⟩
      obtain ⟨y, rfl⟩ : ∃ y, b = some y := by
        cases b
        · cases hy
        · exact ⟨_, rfl⟩
      have hgy2 : ys[xs.length - 1]? = some (some y) := by
        rw [hlen]
        exact hgy
      have hval : (map2 f xs ys)[xs.length - 1]? = some (f (some x) (some y)) := by
        rw [map2, List.getElem?_zipWith, hgx, hgy2]
      rw [hval]
      simpa using hf x y

theorem map3_length (f : Option ℚ → Option ℚ → Option ℚ → Option ℚ) :
    ∀ as bs cs : SeriesQ,
      (map3 f as bs cs).length = min as.length (min bs.length cs.length) := by
  intro as
  induction as with
  | nil => intro bs cs; simp [map3]
  | cons a as ih =>
    intro bs cs
    cases bs with
    | nil => simp [map3]
    | cons b bs =>
      cases cs with
      | nil => simp [map3]
      | cons c cs =>
        have := ih bs cs
        simp only [map3, List.length_cons, this]
        omega

theorem shift1_length {xs : SeriesQ} (h : xs ≠ []) : (shift1 xs).length = xs.length := by
  have := List.length_pos.mpr h
  simp only [shift1, List.length_cons, List.length_dropLast]
  omega

theorem rollApply_length (f : List ℚ → ℚ) (p : ℕ) (xs : SeriesQ) :
    (rollApply f p xs).length = xs.length := by
  simp [rollApply]

/-- The latest snapshot's fields, read back from `latestOf`. -/
theorem latestOf_fields {bars : List Bar} {l : Latest} (h : latestOf bars = some l) :
    l.close = roundO 4 (lastD (closeS bars)) ∧
    l.macd = roundO 4 (lastD (macd (closeS bars) 12 26 9).1) ∧
    l.macd_signal = roundO 4 (lastD (macd (closeS bars) 12 26 9).2.1) ∧
    l.macd_hist = roundO 4 (lastD (macd (closeS bars) 12 26 9).2.2) ∧
    l.ema_short = roundO 4 (lastD (ema_crossover (closeS bars) 9 21).1) ∧
    l.ema_long = roundO 4 (lastD (ema_crossover (closeS bars) 9 21).2) ∧
    l.bb_upper = roundO 4 (lastD (bollinger_bands (closeS bars) 20 2).1) ∧
    l.bb_mid = roundO 4 (lastD (bollinger_bands (closeS bars) 20 2).2.1) ∧
    l.bb_lower = roundO 4 (lastD (bollinger_bands (closeS bars) 20 2).2.2) ∧
    l.atr = roundO 4 (lastD (atr (highS bars) (lowS bars) (closeS bars) 14)) := by
  unfold latestOf at h
  split at h
  · injection h with h2
    subst h2
    exact ⟨rfl, rfl, rfl, rfl, rfl, rfl, rfl, rfl, rfl, rfl⟩
  · cases h

theorem roundO_isSome {d : ℕ} {o : Option ℚ} (h : o.isSome = true) :
    (roundO d o).isSome = true := by
  cases o with
  | none => cases h
  | some v => rfl

set_option maxRecDepth 400000 in
/-- C6 (counterexample): `demoUp` has exactly 30 bars, yet
`compute_all` returns a populated record whose latest RSI scalar is
undefined — the pipeline does emit records with partially undefined
latest values. -/
theorem claim_C6_cex :
    demoUp.length = 30 ∧
    compute_all demoUp = PipeResult.ok demoOut ∧
    demoOut.values.rsi = none :=
  ⟨by decide, by decide, by decide⟩

/-- C6 (amended): every populated record has all non-oscillator latest
scalars defined — close, the three MACD values, the two crossover EMAs,
the three Bollinger bands and ATR (the two volume fields are integers
by construction); only the oscillator scalars (RSI, %K, %D) can be
undefined, as the counterexample shows. -/
theorem claim_C6 (bars : List Bar) (out : Output)
    (h : compute_all bars = PipeResult.ok out) :
    out.values.close.isSome = true ∧
    out.values.macd.isSome = true ∧
    out.values.macd_signal.isSome = true ∧
    out.values.macd_hist.isSome = true ∧
    out.values.ema_short.isSome = true ∧
    out.values.ema_long.isSome = true ∧
    out.values.bb_upper.isSome = true ∧
    out.values.bb_mid.isSome = true ∧
    out.values.bb_lower.isSome = true ∧
    out.values.atr.isSome = true := by
  obtain ⟨hn, hl, -⟩ := compute_all_ok_elim h
  obtain ⟨hcl, hmacd, hsig, hhist, hes, hel, hbu, hbm, hblo, hatr⟩ := latestOf_fields hl
  have hcs : AllSome (closeS bars) := allSome_mapBar bars _
  have hlen_cs : (closeS bars).length = bars.length := List.length_map _ _
  have hne_cs : closeS bars ≠ [] := by
    apply List.length_pos.mp
    omega
  have hsub : ∀ x y : ℚ, (oSub (some x) (some y)).isSome = true := fun x y => rfl
  have hadd : ∀ x y : ℚ, (oAdd (some x) (some y)).isSome = true := fun x y => rfl
  -- MACD line, signal, histogram
  have hml_eq : (macd (closeS bars) 12 26 9).1
      = map2 oSub (ema (closeS bars) 12) (ema (closeS bars) 26) := rfl
  have hml_all : AllSome (macd (closeS bars) 12 26 9).1 := by
    rw [hml_eq]
    exact allSome_map2 hsub (allSome_ewmGo hcs none) (allSome_ewmGo hcs none)
  have hml_len : (macd (closeS bars) 12 26 9).1.length = bars.length := by
    rw [hml_eq]
    simp [map2, ema, ewmSpan, ewmGo_length, hlen_cs]
  have hml_ne : (macd (closeS bars) 12 26 9).1 ≠ [] := by
    apply List.length_pos.mp
    omega
  have hsl_eq : (macd (closeS bars) 12 26 9).2.1
      = ema (macd (closeS bars) 12 26 9).1 9 := rfl
  have hsl_all : AllSome (macd (closeS bars) 12 26 9).2.1 := by
    rw [hsl_eq]
    exact allSome_ewmGo hml_all none
  have hsl_len : (macd (closeS bars) 12 26 9).2.1.length = bars.length := by
    rw [hsl_eq]
    simpa [ema, ewmSpan, ewmGo_length] using hml_len
  have hsl_ne : (macd (closeS bars) 12 26 9).2.1 ≠ [] := by
    apply List.length_pos.mp
    omega
  have hh_eq : (macd (closeS bars) 12 26 9).2.2
      = map2 oSub (macd (closeS bars) 12 26 9).1 (macd (closeS bars) 12 26 9).2.1 := rfl
  have hh_all : AllSome (macd (closeS bars) 12 26 9).2.2 := by
    rw [hh_eq]
    exact allSome_map2 hsub hml_all hsl_all
  have hh_ne : (macd (closeS bars) 12 26 9).2.2 ≠ [] := by
    apply List.length_pos.mp
    rw [hh_eq]
    simp only [map2, List.length_zipWith, hml_len, hsl_len]
    omega
  -- crossover EMAs
  have hes_all : AllSome (ema_crossover (closeS bars) 9 21).1 := allSome_ewmGo hcs none
  have hes_ne : (ema_crossover (closeS bars) 9 21).1 ≠ [] := by
    apply List.length_pos.mp
    show 0 < (ewmGo _ none (closeS bars)).length
    rw [ewmGo_length]
    omega
  have hel_all : AllSome (ema_crossover (closeS bars) 9 21).2 := allSome_ewmGo hcs none
  have hel_ne : (ema_crossover (closeS bars) 9 21).2 ≠ [] := by
    apply List.length_pos.mp
    show 0 < (ewmGo _ none (closeS bars)).length
    rw [ewmGo_length]
    omega
  -- Bollinger bands
  have hmid_last : (lastD (sma (closeS bars) 20)).isSome = true :=
    lastD_rollApply_isSome _ hcs (by omega) (by omega)
  have hstd_last : (lastD (rollingStd (closeS bars) 20)).isSome = true :=
    lastD_rollApply_isSome _ hcs (by omega) (by omega)
  have hstd2_last : (lastD (scalarMul 2 (rollingStd (closeS bars) 20))).isSome = true :=
    lastD_map_isSome hstd_last
  have hband_len : (sma (closeS bars) 20).length
      = (scalarMul 2 (rollingStd (closeS bars) 20)).length := by
    simp [sma, rollingStd, scalarMul, rollApply_length]
  have hbu_last : (lastD (bollinger_bands (closeS bars) 20 2).1).isSome = true := by
    show (lastD (map2 oAdd (sma (closeS bars) 20)
      (scalarMul 2 (rollingStd (closeS bars) 20)))).isSome = true
    exact lastD_map2_isSome hadd hmid_last hstd2_last hband_len
  have hbl_last : (lastD (bollinger_bands (closeS bars) 20 2).2.2).isSome = true := by
    show (lastD (map2 oSub (sma (closeS bars) 20)
      (scalarMul 2 (rollingStd (closeS bars) 20)))).isSome = true
    exact lastD_map2_isSome hsub hmid_last hstd2_last hband_len
  -- ATR
  have hhs : AllSome (highS bars) := allSome_mapBar bars _
  have hlen_hi : (highS bars).length = bars.length := List.length_map _ _
  have hlen_lo : (lowS bars).length = bars.length := List.length_map _ _
  have htr_all : AllSome (map3 oMax3 (map2 oSub (highS bars) (lowS bars))
      (absS (map2 oSub (highS bars) (shift1 (closeS bars))))
      (absS (map2 oSub (lowS bars) (shift1 (closeS bars))))) := by
    intro z hz
    obtain ⟨a, ha, b, hb, c, hc, rfl⟩ := mem_map3 hz
    have := allSome_map2 hsub hhs (allSome_mapBar bars _) a ha
    obtain ⟨x, rfl⟩ := Option.isSome_iff_exists.mp this
    exact oMax3_isSome_left x b c
  have hatr_all : AllSome (atr (highS bars) (lowS bars) (closeS bars) 14) :=
    allSome_ewmGo htr_all none
  have hne_bars : bars ≠ [] := by
    intro e
    subst e
    simp at hn
  have hatr_len : (atr (highS bars) (lowS bars) (closeS bars) 14).length = bars.length := by
    show (ewmGo _ none _).length = bars.length
    rw [ewmGo_length, map3_length]
    simp only [map2, absS, List.length_map, List.length_zipWith,
      shift1_length hne_cs, hlen_cs, hlen_hi, hlen_lo]
    omega
  have hatr_ne : (atr (highS bars) (lowS bars) (closeS bars) 14) ≠ [] := by
    apply List.length_pos.mp
    omega
  refine ⟨?_, ?_, ?_, ?_, ?_, ?_, ?_, ?_, ?_, ?_⟩
  · rw [hcl]; exact roundO_isSome (lastD_isSome_of_allSome hcs hne_cs)
  · rw [hmacd]; exact roundO_isSome (lastD_isSome_of_allSome hml_all hml_ne)
  · rw [hsig]; exact roundO_isSome (lastD_isSome_of_allSome hsl_all hsl_ne)
  · rw [hhist]; exact roundO_isSome (lastD_isSome_of_allSome hh_all hh_ne)
  · rw [hes]; exact roundO_isSome (lastD_isSome_of_allSome hes_all hes_ne)
  · rw [hel]; exact roundO_isSome (lastD_isSome_of_allSome hel_all hel_ne)
  · rw [hbu]; exact roundO_isSome hbu_last
  · rw [hbm]; exact roundO_isSome hmid_last
  · rw [hblo]; exact roundO_isSome hbl_last
  · rw [hatr]; exact roundO_isSome (lastD_isSome_of_allSome hatr_all hatr_ne)

set_option maxRecDepth 400000 in
theorem claim_C6_witness :
    compute_all demoUp = PipeResult.ok demoOut ∧
    (demoOut.values.close.isSome = true ∧
      demoOut.values.macd.isSome = true ∧
      demoOut.values.macd_signal.isSome = true ∧
      demoOut.values.macd_hist.isSome = true ∧
      demoOut.values.ema_short.isSome = true ∧
      demoOut.values.ema_long.isSome = true ∧
      demoOut.values.bb_upper.isSome = true ∧
      demoOut.values.bb_mid.isSome = true ∧
      demoOut.values.bb_lower.isSome = true ∧
      demoOut.values.atr.isSome = true) :=
  ⟨by decide, claim_C6 demoUp demoOut (by decide)⟩

end Trader
